import Mathlib

/-!
Verification of `include/parallel_task_queue.h` (namespace `am`).

The queue's lock-protected critical sections are embedded as atomic
operations on an explicit state.  Each public operation of the C++ class
becomes a Lean function on `parallel_task_queue`; the scheduler's
assignment pass `try_assign_tasks` and the task executor's completion
report become further atomic steps.  A step relation and a reachability
predicate tie them together, so that "for every reachable state"
claims become inductive invariants.

Workers (`task_thread<task_executor>`, whose header is external to the
queue) are modelled from their documented contract: each worker slot is a
busy flag; `try_assign` is called only on an available worker, atomically
moves it to busy and begins execution when it accepts, and has no effect
when it (defensively) rejects.  An arbitrary acceptance oracle
`acc : Nat -> Bool` decides which calls accept.
-/

namespace am

/-- State of one `parallel_task_queue` object: the fields of the C++
class that the claims are about.  `workers_` holds one busy flag per
`task_thread` in the pool (`true` = busy); the mutexes, the condition
variable and the scheduler thread handle carry no state of their own. -/
structure parallel_task_queue (Task : Type) where
  active_ : Bool
  hasWaiting_ : Bool
  running_ : Int
  waiting_ : List Task
  workers_ : List Bool
  deriving DecidableEq, Repr

namespace parallel_task_queue

variable {Task : Type}

/-- Constructor: `parallel_task_queue(unsigned int concurrency)`.
No validation is applied to `concurrency`; the pool gets exactly
`concurrency` workers, all idle, and no tasks wait or run. -/
def init (Task : Type) (c : Nat) : parallel_task_queue Task :=
  { active_ := true
    hasWaiting_ := false
    running_ := 0
    waiting_ := []
    workers_ := List.replicate c false }

/-- `enqueue(const task_type&)`, `enqueue(task_type&&)` and
`enqueue_emplace(Args&&...)`: `waiting_.push_back`/`emplace_back`
followed by `hasWaiting_.store(true)`, under the lock. -/
def enqueue (s : parallel_task_queue Task) (t : Task) : parallel_task_queue Task :=
  { s with waiting_ := s.waiting_ ++ [t], hasWaiting_ := true }

/-- `enqueue(InputIterator first, InputIterator last)`:
`waiting_.insert(begin(waiting_), first, last)` inserts the range at the
FRONT of the deque, then `hasWaiting_.store(true)`. -/
def enqueue_range (s : parallel_task_queue Task) (ts : List Task) :
    parallel_task_queue Task :=
  { s with waiting_ := ts ++ s.waiting_, hasWaiting_ := true }

/-- `enqueue(std::initializer_list<task_type>)`:
`waiting_.insert(waiting_.end(), il)` appends at the back, then
`hasWaiting_.store(true)`. -/
def enqueue_list (s : parallel_task_queue Task) (ts : List Task) :
    parallel_task_queue Task :=
  { s with waiting_ := s.waiting_ ++ ts, hasWaiting_ := true }

/-- `std::find` + `erase` of the first element comparing equal to `t`:
returns the remaining list, or `none` when no element matches. -/
def removeFirst [BEq Task] (t : Task) : List Task → Option (List Task)
  | [] => none
  | x :: xs => if x == t then some xs else (removeFirst t xs).map (fun ws => x :: ws)

/-- `try_remove(const task_type& t)`: erases the first waiting task equal
to `t` and returns `true`; stores `false` into `hasWaiting_` only when the
erase left the deque empty.  Returns `false` leaving everything unchanged
when no waiting task matches. -/
def try_remove [BEq Task] (s : parallel_task_queue Task) (t : Task) :
    Bool × parallel_task_queue Task :=
  match removeFirst t s.waiting_ with
  | some ws =>
      (true, { s with waiting_ := ws,
                      hasWaiting_ := if ws.isEmpty then false else s.hasWaiting_ })
  | none => (false, s)

/-- `clear()`: `waiting_.clear()` then `hasWaiting_.store(false)`. -/
def clear (s : parallel_task_queue Task) : parallel_task_queue Task :=
  { s with waiting_ := [], hasWaiting_ := false }

/-- `concurrency()`: `workers_.size()`. -/
def concurrency (s : parallel_task_queue Task) : Nat :=
  s.workers_.length

/-- `empty()`: `!hasWaiting_.load()`. -/
def empty (s : parallel_task_queue Task) : Bool :=
  !s.hasWaiting_

/-- `waiting()`: `waiting_.size()` (read under the lock). -/
def waiting (s : parallel_task_queue Task) : Nat :=
  s.waiting_.length

/-- `running()`: `running_.load()`. -/
def running (s : parallel_task_queue Task) : Int :=
  s.running_

/-- `busy()`: `running_.load() >= int(workers_.size())`. -/
def busy (s : parallel_task_queue Task) : Bool :=
  decide ((s.workers_.length : Int) ≤ s.running_)

/-- `complete()`: `empty() && (running() < 1)`.  `running()` returns
`std::size_t`, so `running() < 1` holds exactly when `running_` is `0`
(a negative `int` would wrap to a huge unsigned value). -/
def complete (s : parallel_task_queue Task) : Bool :=
  empty s && decide (s.running_ = 0)

/-- Number of busy workers in the pool. -/
def busyCount : List Bool → Nat
  | [] => 0
  | b :: ws => (if b then 1 else 0) + busyCount ws

/-- The loop body of `try_assign_tasks`, iterating the worker slots from
index `i` on.  `fuel` bounds the iteration (it is `workers_.length - i`
at every call, so the fuel never runs out before the index walks off the
pool).  Returns the resulting state together with the list of tasks
dispatched during this pass, in dispatch order.  `acc i` tells whether
the `try_assign` call on worker `i` accepts. -/
def tatGo (acc : Nat → Bool) :
    Nat → Nat → parallel_task_queue Task → parallel_task_queue Task × List Task
  | 0, _, s => (s, [])
  | fuel + 1, i, s =>
    match s.workers_.get? i with
    | none => (s, [])
    | some true => tatGo acc fuel (i + 1) s
    | some false =>
      match s.waiting_ with
      | [] => ({ s with hasWaiting_ := false }, [])
      | t :: rest =>
        if acc i then
          let s1 : parallel_task_queue Task :=
            { s with workers_ := s.workers_.set i true,
                     running_ := s.running_ + 1,
                     waiting_ := rest }
          match rest with
          | [] => ({ s1 with hasWaiting_ := false }, [t])
          | _ :: _ =>
            if busy s1 then (s1, [t])
            else
              let k := tatGo acc fuel (i + 1) s1
              (k.1, t :: k.2)
        else tatGo acc fuel (i + 1) s

/-- `try_assign_tasks()`: one scheduling pass over all worker slots.
For each available worker: under the lock, if the deque is empty clear
`hasWaiting_` and stop; otherwise hand the front task to the worker; on
acceptance increment `running_`, pop the front, stop if the deque became
empty (clearing `hasWaiting_`) or if `busy()`, else continue with the
next slot; on rejection continue with the next slot. -/
def try_assign_tasks (acc : Nat → Bool) (s : parallel_task_queue Task) :
    parallel_task_queue Task × List Task :=
  tatGo acc s.workers_.length 0 s

/-- Completion report of the `task_executor` running on worker `i` when
`task_()` RETURNS NORMALLY: its body `task_(); --queue_->running_;`
reaches the decrement, and the worker autonomously returns to idle. -/
def finishTask (i : Nat) (s : parallel_task_queue Task) : parallel_task_queue Task :=
  { s with running_ := s.running_ - 1, workers_ := s.workers_.set i false }

/-- `task_executor::operator()` when `task_()` EXITS BY EXCEPTION: the
body `task_(); --queue_->running_;` has no guard around the call, so the
exception propagates past the decrement and `running_` keeps its value.
Modelled from the spec for the part outside this header (task_thread.h
is not under src/): per the worker contract, the worker returns to idle
afterwards.  This is the failure path of claim C4. -/
def finishTaskFail (i : Nat) (s : parallel_task_queue Task) : parallel_task_queue Task :=
  { s with workers_ := s.workers_.set i false }

/-- The loop of `wait()`: `while(!empty() || running()) isDone_.wait(lock);`.
Given the sequence of states observed at successive wakeups, the loop
returns at the first observation with `empty()` true and `running()`
zero, re-checking the condition at every wakeup. -/
def waitScan : List (parallel_task_queue Task) → Option (parallel_task_queue Task)
  | [] => none
  | s :: rest => if empty s = false ∨ s.running_ ≠ 0 then waitScan rest else some s

/-- One atomic step of the system: a caller-invoked critical section of
the public API, a scheduling pass, or the completion report of a task
that returned normally (enabled only for a busy worker).  Runs in which
a task exits by exception are treated separately via `finishTaskFail`
(claim C4): on that path the code skips the decrement, so the counting
invariant below genuinely does not hold. -/
inductive Step [BEq Task] :
    parallel_task_queue Task → parallel_task_queue Task → Prop where
  | enq (s : parallel_task_queue Task) (t : Task) : Step s (enqueue s t)
  | enq_range (s : parallel_task_queue Task) (ts : List Task) :
      Step s (enqueue_range s ts)
  | enq_list (s : parallel_task_queue Task) (ts : List Task) :
      Step s (enqueue_list s ts)
  | remove (s : parallel_task_queue Task) (t : Task) : Step s (try_remove s t).2
  | clear_op (s : parallel_task_queue Task) : Step s (clear s)
  | assign (s : parallel_task_queue Task) (acc : Nat → Bool) :
      Step s (try_assign_tasks acc s).1
  | finish (s : parallel_task_queue Task) (i : Nat)
      (h : s.workers_.get? i = some true) : Step s (finishTask i s)

/-- States reachable from a freshly constructed queue of concurrency `c`. -/
inductive Reachable [BEq Task] (c : Nat) : parallel_task_queue Task → Prop where
  | base : Reachable c (init Task c)
  | step {s s' : parallel_task_queue Task} :
      Reachable c s → Step s s' → Reachable c s'

/-- The inductive invariant: the pool size is fixed, `running_` counts
exactly the busy workers, and a cleared `hasWaiting_` flag means the
deque really is empty. -/
def Inv (c : Nat) (s : parallel_task_queue Task) : Prop :=
  s.workers_.length = c ∧
  s.running_ = (busyCount s.workers_ : Int) ∧
  (s.hasWaiting_ = false → s.waiting_ = [])

/-- Exact agreement of the `hasWaiting_` flag with deque non-emptiness. -/
def FlagOK (s : parallel_task_queue Task) : Prop :=
  s.hasWaiting_ = !s.waiting_.isEmpty

/-! ### Helper lemmas -/

theorem busyCount_le_length (ws : List Bool) : busyCount ws ≤ ws.length := by
  induction ws with
  | nil => simp [busyCount]
  | cons b ws ih =>
    cases b <;> simp [busyCount] <;> omega

theorem busyCount_replicate_false (c : Nat) :
    busyCount (List.replicate c false) = 0 := by
  induction c with
  | zero => rfl
  | succ n ih => simpa [List.replicate, busyCount] using ih

theorem busyCount_set_true {ws : List Bool} {i : Nat}
    (h : ws.get? i = some false) :
    busyCount (ws.set i true) = busyCount ws + 1 := by
  induction ws generalizing i with
  | nil => simp [List.get?] at h
  | cons b ws ih =>
    cases i with
    | zero =>
      rw [List.get?_cons_zero] at h
      injection h with h
      subst h
      simp [List.set, busyCount, Nat.add_comm]
    | succ n =>
      rw [List.get?_cons_succ] at h
      simp only [List.set, busyCount, ih h]
      omega

theorem busyCount_set_false {ws : List Bool} {i : Nat}
    (h : ws.get? i = some true) :
    busyCount ws = busyCount (ws.set i false) + 1 := by
  induction ws generalizing i with
  | nil => simp [List.get?] at h
  | cons b ws ih =>
    cases i with
    | zero =>
      rw [List.get?_cons_zero] at h
      injection h with h
      subst h
      simp [List.set, busyCount, Nat.add_comm]
    | succ n =>
      rw [List.get?_cons_succ] at h
      simp only [List.set, busyCount, ih h]
      omega

theorem length_set_workers (ws : List Bool) (i : Nat) (b : Bool) :
    (ws.set i b).length = ws.length :=
  List.length_set ws i b

/-- A scheduling pass dispatches a prefix of the waiting queue, in
order: the original queue splits into the dispatched tasks followed by
the tasks still waiting. -/
theorem tatGo_split (acc : Nat → Bool) (fuel i : Nat)
    (s : parallel_task_queue Task) :
    s.waiting_ = (tatGo acc fuel i s).2 ++ (tatGo acc fuel i s).1.waiting_ := by
  induction fuel generalizing i s with
  | zero => simp [tatGo]
  | succ n ih =>
    rw [tatGo]
    split
    · simp
    · exact ih (i + 1) s
    · split
      · next heq => simp [heq]
      · next t rest heq =>
        split
        · split
          · next => simp [heq]
          · next x xs =>
            dsimp only
            split
            · simp [heq]
            · rw [heq]
              have h2 := ih (i + 1)
                { active_ := s.active_, hasWaiting_ := s.hasWaiting_,
                  running_ := s.running_ + 1, waiting_ := x :: xs,
                  workers_ := s.workers_.set i true }
              simp only [List.cons_append, List.cons.injEq, true_and]
              exact h2
        · exact ih (i + 1) s

/-- A scheduling pass preserves the inductive invariant. -/
theorem tatGo_inv {c : Nat} (acc : Nat → Bool) (fuel i : Nat)
    (s : parallel_task_queue Task) (h : Inv c s) :
    Inv c (tatGo acc fuel i s).1 := by
  induction fuel generalizing i s with
  | zero => simpa [tatGo] using h
  | succ n ih =>
    rw [tatGo]
    split
    · exact h
    · exact ih (i + 1) s h
    · rename_i hw
      split
      · next heq => exact ⟨h.1, h.2.1, fun _ => heq⟩
      · next t rest heq =>
        split
        · have hInv1 : Inv c
              { active_ := s.active_, hasWaiting_ := s.hasWaiting_,
                running_ := s.running_ + 1, waiting_ := rest,
                workers_ := s.workers_.set i true } := by
            refine ⟨?_, ?_, ?_⟩
            · rw [length_set_workers]
              exact h.1
            · show s.running_ + 1 = _
              rw [busyCount_set_true hw, h.2.1]
              push_cast
              ring
            · intro hf
              exact absurd (h.2.2 hf) (by simp [heq])
          split
          · exact ⟨hInv1.1, hInv1.2.1, fun _ => rfl⟩
          · next x xs =>
            dsimp only
            split
            · exact hInv1
            · exact ih (i + 1) _ hInv1
        · exact ih (i + 1) s h


/-- A scheduling pass re-establishes exact agreement of `hasWaiting_`
with deque non-emptiness, provided it held on entry. -/
theorem tatGo_flagOK (acc : Nat → Bool) (fuel i : Nat)
    (s : parallel_task_queue Task) (h : FlagOK s) :
    FlagOK (tatGo acc fuel i s).1 := by
  induction fuel generalizing i s with
  | zero => simpa [tatGo] using h
  | succ n ih =>
    rw [tatGo]
    split
    · exact h
    · exact ih (i + 1) s h
    · split
      · next heq => simp [FlagOK, heq]
      · next t rest heq =>
        have hflag : s.hasWaiting_ = true := by
          rw [show s.hasWaiting_ = !s.waiting_.isEmpty from h]
          simp [heq]
        split
        · split
          · simp [FlagOK]
          · next x xs =>
            dsimp only
            split
            · show s.hasWaiting_ = _
              simp [hflag]
            · refine ih (i + 1) _ ?_
              show s.hasWaiting_ = _
              simp [hflag]
        · exact ih (i + 1) s h

/-- A pass in which every `try_assign` call rejects leaves the state
untouched and dispatches nothing (the front task stays at the front),
provided the deque is non-empty. -/
theorem tatGo_reject (acc : Nat → Bool) (fuel i : Nat)
    (s : parallel_task_queue Task) (hne : s.waiting_ ≠ [])
    (hrej : ∀ j, acc j = false) :
    tatGo acc fuel i s = (s, []) := by
  induction fuel generalizing i with
  | zero => rfl
  | succ n ih =>
    rw [tatGo]
    split
    · rfl
    · exact ih (i + 1)
    · split
      · next heq => exact absurd heq hne
      · next t rest heq =>
        simp only [hrej i, Bool.false_eq_true, if_false]
        exact ih (i + 1)

/-- `try_remove` preserves the inductive invariant. -/
theorem try_remove_inv [BEq Task] {c : Nat} {s : parallel_task_queue Task}
    (t : Task) (h : Inv c s) : Inv c (try_remove s t).2 := by
  cases hrf : removeFirst t s.waiting_ with
  | none => simpa [try_remove, hrf] using h
  | some ws =>
    refine ⟨?_, ?_, ?_⟩
    · simpa [try_remove, hrf] using h.1
    · simpa [try_remove, hrf] using h.2.1
    · simp only [try_remove, hrf]
      intro hf
      by_cases hemp : ws.isEmpty = true
      · simpa using hemp
      · simp [hemp] at hf
        have hnil := h.2.2 hf
        rw [hnil] at hrf
        simp [removeFirst] at hrf

/-- The completion report of a busy worker preserves the invariant. -/
theorem finishTask_inv {c : Nat} {s : parallel_task_queue Task} {i : Nat}
    (hw : s.workers_.get? i = some true) (h : Inv c s) :
    Inv c (finishTask i s) := by
  refine ⟨?_, ?_, h.2.2⟩
  · show (s.workers_.set i false).length = c
    rw [length_set_workers]
    exact h.1
  · show s.running_ - 1 = (busyCount (s.workers_.set i false) : Int)
    rw [h.2.1, busyCount_set_false hw]
    push_cast
    ring

/-- Every reachable state satisfies the inductive invariant: the pool
size is the construction-time concurrency, `running_` counts exactly
the busy workers, and a cleared `hasWaiting_` flag implies an empty
deque. -/
theorem reachable_inv [BEq Task] {c : Nat} {s : parallel_task_queue Task}
    (h : Reachable c s) : Inv c s := by
  induction h with
  | base =>
    exact ⟨by simp [init], by simp [init, busyCount_replicate_false], fun _ => rfl⟩
  | step hr hst ih =>
    cases hst with
    | enq t => exact ⟨ih.1, ih.2.1, fun hf => by simp [enqueue] at hf⟩
    | enq_range ts => exact ⟨ih.1, ih.2.1, fun hf => by simp [enqueue_range] at hf⟩
    | enq_list ts => exact ⟨ih.1, ih.2.1, fun hf => by simp [enqueue_list] at hf⟩
    | remove t => exact try_remove_inv t ih
    | clear_op => exact ⟨ih.1, ih.2.1, fun _ => rfl⟩
    | assign acc => exact tatGo_inv acc _ 0 _ ih
    | finish i hw => exact finishTask_inv hw ih

/-- `removeFirst` finds nothing exactly when no element matches. -/
theorem removeFirst_none_iff [BEq Task] (t : Task) (l : List Task) :
    removeFirst t l = none ↔ ∀ v ∈ l, (v == t) = false := by
  induction l with
  | nil => simp [removeFirst]
  | cons x xs ih =>
    by_cases hx : (x == t) = true
    · simp [removeFirst, hx]
    · have hx2 : (x == t) = false := by simpa using hx
      simp [removeFirst, hx2, ih]

/-- `removeFirst` removes exactly the first matching element. -/
theorem removeFirst_some [BEq Task] {t : Task} {l ws : List Task}
    (h : removeFirst t l = some ws) :
    ∃ pre u post, l = pre ++ u :: post ∧ (u == t) = true ∧
      (∀ v ∈ pre, (v == t) = false) ∧ ws = pre ++ post := by
  induction l generalizing ws with
  | nil => simp [removeFirst] at h
  | cons x xs ih =>
    by_cases hx : (x == t) = true
    · rw [removeFirst, if_pos hx] at h
      injection h with h
      exact ⟨[], x, xs, by simp, hx, by simp, by simp [h]⟩
    · have hx2 : (x == t) = false := by simpa using hx
      rw [removeFirst, if_neg (by simp [hx2])] at h
      obtain ⟨ws1, hws1, hmap⟩ := Option.map_eq_some'.mp h
      obtain ⟨pre, u, post, hl, hu, hpre, hws⟩ := ih hws1
      refine ⟨x :: pre, u, post, by simp [hl], hu, ?_, by simp [hws, hmap.symm]⟩
      intro v hv
      rcases List.mem_cons.mp hv with rfl | hv
      · exact hx2
      · exact hpre v hv

end parallel_task_queue

open parallel_task_queue

section claims

variable {Task : Type}

/-! ### Claims -/

/-- Claim C1: "for every batch enqueue of a task sequence, the tasks are
placed after the tasks already waiting ... for all enqueue overloads
(single, iterator-range, initializer-list, emplace)".  The code violates
this for the iterator-range overload: `enqueue(first, last)` inserts the
batch at the FRONT of the waiting deque, so with task `10` already
waiting, range-enqueueing `[20, 21]` yields dispatch order
`[20, 21, 10]` instead of `[10, 20, 21]`.  The single-task and
initializer-list overloads do append at the back. -/
theorem claim_C1_range_enqueue_prepends :
    (enqueue_range (enqueue (init Nat 1) 10) [20, 21]).waiting_ = [20, 21, 10] ∧
    (enqueue_list (enqueue (init Nat 1) 10) [20, 21]).waiting_ = [10, 20, 21] ∧
    (enqueue (enqueue (init Nat 1) 10) 20).waiting_ = [10, 20] := by
  decide

/-- Claim C2: a task whose assignment is rejected by the worker is left
at the front of the waiting queue unchanged and is retried later, with
no loss and no duplication.  First conjunct: any scheduling pass
dispatches a prefix of the waiting queue, so no task is ever lost,
duplicated or reordered by a pass.  Second conjunct: a pass in which
every `try_assign` call rejects leaves the whole state unchanged and
dispatches nothing, so the front task is still at the front for the next
pass. -/
theorem claim_C2_rejection_keeps_front (s : parallel_task_queue Task)
    (acc : Nat → Bool) :
    s.waiting_ = (try_assign_tasks acc s).2 ++ (try_assign_tasks acc s).1.waiting_ ∧
    (s.waiting_ ≠ [] → (∀ j, acc j = false) → try_assign_tasks acc s = (s, [])) := by
  refine ⟨tatGo_split acc _ 0 s, ?_⟩
  intro hne hrej
  exact tatGo_reject acc _ 0 s hne hrej

theorem claim_C2_rejection_keeps_front_witness :
    (enqueue (init Nat 2) 5).waiting_ =
        (try_assign_tasks (fun _ => false) (enqueue (init Nat 2) 5)).2 ++
        (try_assign_tasks (fun _ => false) (enqueue (init Nat 2) 5)).1.waiting_ ∧
    try_assign_tasks (fun _ => false) (enqueue (init Nat 2) 5)
      = (enqueue (init Nat 2) 5, []) :=
  ⟨(claim_C2_rejection_keeps_front (enqueue (init Nat 2) 5) (fun _ => false)).1,
   (claim_C2_rejection_keeps_front (enqueue (init Nat 2) 5) (fun _ => false)).2
     (by decide) (fun _ => rfl)⟩

/-- Claim C3, counterexample: `complete()` is NOT equivalent to
`waiting() == 0 && running() == 0` in every reachable state.  An
iterator-range enqueue of an empty range stores `true` into
`hasWaiting_` without inserting anything, reaching a state with
`waiting() == 0`, `running() == 0`, yet `complete() == false` (it reads
the flag through `empty()`, not the deque size). -/
theorem claim_C3_cex :
    Reachable 1 (enqueue_range (init Nat 1) ([] : List Nat)) ∧
    waiting (enqueue_range (init Nat 1) ([] : List Nat)) = 0 ∧
    running (enqueue_range (init Nat 1) ([] : List Nat)) = 0 ∧
    complete (enqueue_range (init Nat 1) ([] : List Nat)) = false :=
  ⟨Reachable.step Reachable.base (Step.enq_range (init Nat 1) []),
   rfl, rfl, rfl⟩

/-- Claim C3, amended: in every reachable state, `complete() == true`
implies `waiting() == 0 && running() == 0`; the equivalence holds
whenever the `hasWaiting_` flag agrees with deque non-emptiness (which
every operation except an empty-batch enqueue re-establishes). -/
theorem claim_C3_complete_amended [BEq Task] {c : Nat}
    {s : parallel_task_queue Task} (h : Reachable c s) :
    (complete s = true → waiting s = 0 ∧ running s = 0) ∧
    (FlagOK s → (complete s = true ↔ (waiting s = 0 ∧ running s = 0))) := by
  obtain ⟨-, -, hflag⟩ := reachable_inv h
  have fwd : complete s = true → waiting s = 0 ∧ running s = 0 := by
    intro hc
    simp only [complete, empty, Bool.and_eq_true, Bool.not_eq_eq_eq_not,
      Bool.not_true, decide_eq_true_eq] at hc
    obtain ⟨hf, hr⟩ := hc
    rw [waiting, running, hflag hf, hr]
    exact ⟨rfl, rfl⟩
  refine ⟨fwd, fun hok => ⟨fwd, ?_⟩⟩
  rintro ⟨hw0, hr0⟩
  have hnil : s.waiting_ = [] := List.length_eq_zero.mp hw0
  have hfl : s.hasWaiting_ = false := by
    rw [show s.hasWaiting_ = !s.waiting_.isEmpty from hok, hnil]
    rfl
  simp [complete, empty, hfl, show s.running_ = 0 from hr0]

theorem claim_C3_complete_amended_witness :
    (complete (init Nat 1) = true → waiting (init Nat 1) = 0 ∧ running (init Nat 1) = 0) ∧
    (complete (init Nat 1) = true ↔ (waiting (init Nat 1) = 0 ∧ running (init Nat 1) = 0)) :=
  ⟨(claim_C3_complete_amended Reachable.base).1,
   (claim_C3_complete_amended (Reachable.base : Reachable 1 (init Nat 1))).2 rfl⟩

/-- The failing run for claim C4, after its first two steps: a queue of
concurrency 1 holds tasks `[1, 2]`; a scheduling pass assigns task 1,
whose execution then exits by exception, so the executor's decrement of
`running_` is skipped while the worker returns to idle. -/
def c4FailState : parallel_task_queue Nat :=
  finishTaskFail 0
    (try_assign_tasks (fun _ => true) (enqueue_list (init Nat 1) [1, 2])).1

/-- Continuation of the C4 failing run: the next scheduling pass assigns
task 2 to the re-idled worker. -/
def c4SecondAssign : parallel_task_queue Nat :=
  (try_assign_tasks (fun _ => true) c4FailState).1

/-- Claim C4: "the running count is incremented exactly once per
successful assignment, decremented exactly once per executor completion
(even when the task fails), and never goes negative or exceeds the
worker-pool size".  REFUTED on the code's failure path:
`task_executor::operator()` is `task_(); --queue_->running_;` with no
guard, so a task that exits by exception skips the decrement.
Evaluation at the failing input (concurrency 1, tasks `[1, 2]`, task 1
throws): after the failure the worker is idle again but `running()` is
still 1; the next pass assigns task 2 and drives `running()` to
2 > `concurrency()` = 1, violating the claimed upper bound; and after
task 2 completes normally, `running()` is stuck at 1 with
`waiting() == 0`, so `complete()` never becomes true — exactly the
deadlock the spec says the decrement must prevent. -/
theorem claim_C4_missing_decrement_on_failure :
    running (try_assign_tasks (fun _ => true) (enqueue_list (init Nat 1) [1, 2])).1 = 1 ∧
    running c4FailState = 1 ∧
    busyCount c4FailState.workers_ = 0 ∧
    running c4SecondAssign = 2 ∧
    concurrency c4SecondAssign = 1 ∧
    ¬ running c4SecondAssign ≤ (concurrency c4SecondAssign : Int) ∧
    waiting (finishTask 0 c4SecondAssign) = 0 ∧
    running (finishTask 0 c4SecondAssign) = 1 ∧
    complete (finishTask 0 c4SecondAssign) = false := by
  decide

/-- Claim C5: `try_remove(t)` removes the first waiting task comparing
equal to `t` and returns `true` when one exists; otherwise it returns
`false` and leaves the queue state completely unchanged. -/
theorem claim_C5_try_remove [BEq Task] (s : parallel_task_queue Task) (t : Task) :
    ((∃ u ∈ s.waiting_, (u == t) = true) →
       (try_remove s t).1 = true ∧
       ∃ pre u post, s.waiting_ = pre ++ u :: post ∧ (u == t) = true ∧
         (∀ v ∈ pre, (v == t) = false) ∧
         (try_remove s t).2.waiting_ = pre ++ post) ∧
    ((∀ v ∈ s.waiting_, (v == t) = false) →
       (try_remove s t).1 = false ∧ (try_remove s t).2 = s) := by
  constructor
  · intro hex
    cases hrf : removeFirst t s.waiting_ with
    | none =>
      obtain ⟨u, hu, hut⟩ := hex
      have hfalse := (removeFirst_none_iff t s.waiting_).mp hrf u hu
      rw [hut] at hfalse
      cases hfalse
    | some ws =>
      obtain ⟨pre, u, post, hl, hu, hpre, hws⟩ := removeFirst_some hrf
      exact ⟨by simp [try_remove, hrf], pre, u, post, hl, hu, hpre,
        by simp [try_remove, hrf, hws]⟩
  · intro hall
    have hrf := (removeFirst_none_iff t s.waiting_).mpr hall
    exact ⟨by simp [try_remove, hrf], by simp [try_remove, hrf]⟩

theorem claim_C5_try_remove_witness :
    ((try_remove (enqueue_list (init Nat 1) [1, 2]) 1).1 = true ∧
     ∃ pre u post, (enqueue_list (init Nat 1) [1, 2]).waiting_ = pre ++ u :: post ∧
       (u == 1) = true ∧ (∀ v ∈ pre, (v == 1) = false) ∧
       (try_remove (enqueue_list (init Nat 1) [1, 2]) 1).2.waiting_ = pre ++ post) ∧
    ((try_remove (enqueue_list (init Nat 1) [1, 2]) 7).1 = false ∧
     (try_remove (enqueue_list (init Nat 1) [1, 2]) 7).2 = enqueue_list (init Nat 1) [1, 2]) :=
  ⟨(claim_C5_try_remove (enqueue_list (init Nat 1) [1, 2]) 1).1 (by decide),
   (claim_C5_try_remove (enqueue_list (init Nat 1) [1, 2]) 7).2 (by decide)⟩

/-- Claim C6, counterexample: construction with concurrency 0 is neither
rejected nor coerced: the pool simply gets 0 workers, so the effective
worker-pool size is not at least 1. -/
theorem claim_C6_cex :
    concurrency (init Nat 0) = 0 ∧ ¬ 1 ≤ concurrency (init Nat 0) := by
  decide

/-- Claim C6, amended: the constructor applies no validation at all: the
worker-pool size equals the given concurrency parameter, including 0,
and with concurrency 0 no task can ever start running (`running()` stays
0 and every worker list stays empty in every reachable state). -/
theorem claim_C6_no_coercion :
    (∀ c : Nat, concurrency (init Nat c) = c) ∧
    (∀ s : parallel_task_queue Nat, Reachable 0 s →
       running s = 0 ∧ s.workers_ = []) := by
  constructor
  · intro c
    simp [concurrency, init]
  · intro s h
    obtain ⟨hlen, hrun, -⟩ := reachable_inv h
    have hnil : s.workers_ = [] := List.length_eq_zero.mp hlen
    rw [running, hrun, hnil]
    exact ⟨rfl, rfl⟩

theorem claim_C6_no_coercion_witness :
    concurrency (init Nat 3) = 3 ∧
    running (init Nat 0) = 0 ∧ (init Nat 0).workers_ = [] :=
  ⟨claim_C6_no_coercion.1 3,
   (claim_C6_no_coercion.2 (init Nat 0) Reachable.base).1,
   (claim_C6_no_coercion.2 (init Nat 0) Reachable.base).2⟩

/-- Claim C8: `wait()` re-checks its condition on every wakeup and
returns only at an observation where `empty()` is true and `running()`
is zero; every earlier wakeup (spurious or not) saw the condition fail
and went back to waiting. -/
theorem claim_C8_wait_returns (obs : List (parallel_task_queue Task))
    (s : parallel_task_queue Task) (h : waitScan obs = some s) :
    empty s = true ∧ running s = 0 ∧
    ∃ pre post, obs = pre ++ s :: post ∧
      ∀ u ∈ pre, empty u = false ∨ running u ≠ 0 := by
  induction obs with
  | nil => simp [waitScan] at h
  | cons a rest ih =>
    rw [waitScan] at h
    split at h
    · next hcond =>
      obtain ⟨h1, h2, pre, post, hobs, hpre⟩ := ih h
      refine ⟨h1, h2, a :: pre, post, by simp [hobs], ?_⟩
      intro u hu
      rcases List.mem_cons.mp hu with rfl | hu
      · exact hcond
      · exact hpre u hu
    · next hcond =>
      injection h with h
      subst h
      push_neg at hcond
      have h1 : empty a = true := by
        cases hb : empty a
        · exact absurd hb hcond.1
        · rfl
      exact ⟨h1, hcond.2, [], rest, rfl, by simp⟩

theorem claim_C8_wait_returns_witness :
    empty (clear (enqueue (init Nat 1) 5)) = true ∧
    running (clear (enqueue (init Nat 1) 5)) = 0 ∧
    ∃ pre post,
      [enqueue (init Nat 1) 5, clear (enqueue (init Nat 1) 5)]
        = pre ++ clear (enqueue (init Nat 1) 5) :: post ∧
      ∀ u ∈ pre, empty u = false ∨ running u ≠ 0 :=
  claim_C8_wait_returns
    [enqueue (init Nat 1) 5, clear (enqueue (init Nat 1) 5)]
    (clear (enqueue (init Nat 1) 5)) (by decide)

/-- Claim C9: `clear()` empties the waiting deque and clears the
has-waiting flag while leaving `running_`, the worker pool and the
active flag untouched; when nothing is in flight, a `wait()` that
observes the cleared state returns on its very first check. -/
theorem claim_C9_clear_frame (s : parallel_task_queue Task) :
    (clear s).waiting_ = [] ∧ (clear s).hasWaiting_ = false ∧
    running (clear s) = running s ∧ (clear s).workers_ = s.workers_ ∧
    (clear s).active_ = s.active_ ∧
    (running s = 0 → waitScan [clear s] = some (clear s)) := by
  refine ⟨rfl, rfl, rfl, rfl, rfl, ?_⟩
  intro h0
  have hnot : ¬ (empty (clear s) = false ∨ (clear s).running_ ≠ 0) := by
    rintro (hf | hr)
    · simp [empty, clear] at hf
    · exact hr h0
  rw [waitScan, if_neg hnot]

theorem claim_C9_clear_frame_witness :
    (clear (enqueue (init Nat 1) 7)).waiting_ = [] ∧
    (clear (enqueue (init Nat 1) 7)).hasWaiting_ = false ∧
    running (clear (enqueue (init Nat 1) 7)) = running (enqueue (init Nat 1) 7) ∧
    waitScan [clear (enqueue (init Nat 1) 7)] = some (clear (enqueue (init Nat 1) 7)) :=
  ⟨(claim_C9_clear_frame (enqueue (init Nat 1) 7)).1,
   (claim_C9_clear_frame (enqueue (init Nat 1) 7)).2.1,
   (claim_C9_clear_frame (enqueue (init Nat 1) 7)).2.2.1,
   (claim_C9_clear_frame (enqueue (init Nat 1) 7)).2.2.2.2.2 rfl⟩

/-- Claim C10, counterexample: not every mutating operation
re-establishes "has-waiting flag = queue non-empty" before releasing the
lock.  An initializer-list enqueue of an empty list stores `true` into
the flag while inserting nothing, reaching a quiescent state in which
`empty()` is `false` yet `waiting()` is `0`. -/
theorem claim_C10_cex :
    Reachable 1 (enqueue_list (init Nat 1) ([] : List Nat)) ∧
    (enqueue_list (init Nat 1) ([] : List Nat)).hasWaiting_ = true ∧
    (enqueue_list (init Nat 1) ([] : List Nat)).waiting_ = [] ∧
    empty (enqueue_list (init Nat 1) ([] : List Nat)) = false ∧
    waiting (enqueue_list (init Nat 1) ([] : List Nat)) = 0 :=
  ⟨Reachable.step Reachable.base (Step.enq_list (init Nat 1) []),
   rfl, rfl, rfl, rfl⟩

/-- Claim C10, amended: single-task enqueue and `clear()` re-establish
"flag = queue non-empty" unconditionally; the batch enqueues do so only
for a non-empty batch; `try_remove` and the scheduler's assignment pass
preserve the agreement whenever it held on entry.  (The empty-batch
enqueues are the sole exception, per the counterexample.) -/
theorem claim_C10_flag_reestablished [BEq Task] (s : parallel_task_queue Task)
    (t : Task) (ts : List Task) (acc : Nat → Bool) :
    FlagOK (enqueue s t) ∧
    FlagOK (clear s) ∧
    (ts ≠ [] → FlagOK (enqueue_range s ts)) ∧
    (ts ≠ [] → FlagOK (enqueue_list s ts)) ∧
    (FlagOK s → FlagOK (try_remove s t).2) ∧
    (FlagOK s → FlagOK (try_assign_tasks acc s).1) := by
  refine ⟨?_, rfl, ?_, ?_, ?_, fun hok => tatGo_flagOK acc _ 0 s hok⟩
  · show (true : Bool) = _
    simp [enqueue]
  · intro hts
    cases ts with
    | nil => exact absurd rfl hts
    | cons x xs =>
      show (true : Bool) = _
      simp [enqueue_range]
  · intro hts
    cases ts with
    | nil => exact absurd rfl hts
    | cons x xs =>
      show (true : Bool) = _
      simp [enqueue_list]
  · intro hok
    cases hrf : removeFirst t s.waiting_ with
    | none => simpa [FlagOK, try_remove, hrf] using hok
    | some ws =>
      show (try_remove s t).2.hasWaiting_ = _
      simp only [try_remove, hrf]
      by_cases hemp : ws.isEmpty = true
      · simp [hemp]
      · have hsw : s.waiting_ ≠ [] := by
          intro hnil
          rw [hnil] at hrf
          simp [removeFirst] at hrf
        have : s.hasWaiting_ = true := by
          rw [show s.hasWaiting_ = !s.waiting_.isEmpty from hok]
          simpa using hsw
        simp [hemp, this]

theorem claim_C10_flag_reestablished_witness :
    FlagOK (enqueue (init Nat 1) 3) ∧
    FlagOK (clear (init Nat 1)) ∧
    FlagOK (enqueue_range (init Nat 1) [4]) ∧
    FlagOK (enqueue_list (init Nat 1) [4]) ∧
    FlagOK (try_remove (init Nat 1) 3).2 ∧
    FlagOK (try_assign_tasks (fun _ => true) (init Nat 1)).1 :=
  ⟨(claim_C10_flag_reestablished (init Nat 1) 3 [4] (fun _ => true)).1,
   (claim_C10_flag_reestablished (init Nat 1) 3 [4] (fun _ => true)).2.1,
   (claim_C10_flag_reestablished (init Nat 1) 3 [4] (fun _ => true)).2.2.1 (by decide),
   (claim_C10_flag_reestablished (init Nat 1) 3 [4] (fun _ => true)).2.2.2.1 (by decide),
   (claim_C10_flag_reestablished (init Nat 1) 3 [4] (fun _ => true)).2.2.2.2.1 rfl,
   (claim_C10_flag_reestablished (init Nat 1) 3 [4] (fun _ => true)).2.2.2.2.2 rfl⟩

end claims

end am
